import Mathlib

/-!
Verification of the gradient-descent training loop in
`1 - PyTorch Introduction/intro.ipynb` (the "Autograd Toy Problem").

The notebook's loop, per iteration, samples `x = torch.randn([N])`, computes
`y = torch.dot(a*torch.ones([N]), x) + c` (first variant `a = 3, c = -2`,
second variant `a = 2, c = -5`), predicts `y_hat = torch.dot(w, x) + b`,
forms a scalar loss (`torch.sum((y_hat - y)**2)` in the first variant,
`torch.mean(...)` in the second), calls `loss.backward()`, updates
`w -= learning_rate * w.grad`, `b -= learning_rate * b.grad` under
`torch.no_grad()`, and finally zeroes both gradient accumulators.

We embed the loop shallowly: tensors of shape `[N]` are functions
`Fin N → K` over a field `K`, the scalar tensors of shape `[1]` (such as
`b` and the loss argument `(y_hat - y)**2`, whose shape comes from
broadcasting with `b`) are `Fin 1 → K`, and the random draws become an
explicit stream of per-iteration inputs `xs : ℕ → Fin N → K`.  Real-number
instantiations (`K = ℝ`) are used to relate the gradients the loop applies
to the mathematical derivatives of the embedded loss; rational
instantiations (`K = ℚ`) give concrete executable runs.
-/

namespace LinRegIntro

/-- Embedding of `torch.dot`: the dot product of two length-`N` tensors. -/
def dot {K : Type} [Field K] {N : ℕ} (u v : Fin N → K) : K :=
  ∑ i, u i * v i

/-- Embedding of `torch.ones([N])`: the all-ones tensor of shape `[N]`. -/
def onesV (K : Type) [Field K] (N : ℕ) : Fin N → K :=
  fun _ => 1

/-- Embedding of the `torch.sum` reduction of a tensor of shape `[m]`. -/
def sumT {K : Type} [Field K] {m : ℕ} (v : Fin m → K) : K :=
  ∑ i, v i

/-- Embedding of the `torch.mean` reduction of a tensor of shape `[m]`: the sum divided by the
number of elements. -/
def meanT {K : Type} [Field K] {m : ℕ} (v : Fin m → K) : K :=
  sumT v / (Fintype.card (Fin m) : K)

/-- The target computation as the code writes it:
`y = torch.dot(a*torch.ones([N]), x) + c` (the notebook writes `- 2`,
i.e. `c = -2`, in the first variant and `- 5`, i.e. `c = -5`, in the
second). -/
def targetCode {K : Type} [Field K] {N : ℕ} (a c : K) (x : Fin N → K) : K :=
  dot (fun i => a * onesV K N i) x + c

/-- The prediction `y_hat = torch.dot(w, x) + b`. -/
def yHat {K : Type} [Field K] {N : ℕ} (w : Fin N → K) (x : Fin N → K)
    (b : K) : K :=
  dot w x + b

/-- The sum-reduction loss `torch.sum((y_hat - y)**2)` of the first variant.
Because `b` has shape `[1]`, broadcasting gives `(y_hat - y)**2` shape `[1]`,
so the reduction ranges over `Fin 1`. -/
def lossSum {K : Type} [Field K] {N : ℕ} (w : Fin N → K) (b : K)
    (x : Fin N → K) (y : K) : K :=
  sumT (fun _ : Fin 1 => (yHat w x b - y) ^ 2)

/-- The mean-reduction loss `torch.mean((y_hat - y)**2)` of the second
variant, over the same shape-`[1]` tensor. -/
def lossMean {K : Type} [Field K] {N : ℕ} (w : Fin N → K) (b : K)
    (x : Fin N → K) (y : K) : K :=
  meanT (fun _ : Fin 1 => (yHat w x b - y) ^ 2)

/-- Modelled from the spec: `loss.backward()` is the external library's
reverse-mode autograd, not code of this repository.  Per spec §4.1 step 5 and
§9 it is modelled by the closed-form gradient of the sum-reduction loss with
respect to `w`: `∂loss/∂w = 2(y_hat − y)·x`, componentwise.
`lossSum_hasDerivAt_w` below proves this is the exact derivative of
`lossSum`. -/
def gradW {K : Type} [Field K] {N : ℕ} (w : Fin N → K) (b : K)
    (x : Fin N → K) (y : K) : Fin N → K :=
  fun i => 2 * (yHat w x b - y) * x i

/-- Modelled from the spec: the closed-form gradient of the sum-reduction
loss with respect to `b`: `∂loss/∂b = 2(y_hat − y)` (spec §4.1 step 5).
`lossSum_hasDerivAt_b` below proves this is the exact derivative of
`lossSum`. -/
def gradB {K : Type} [Field K] {N : ℕ} (w : Fin N → K) (b : K)
    (x : Fin N → K) (y : K) : K :=
  2 * (yHat w x b - y)

/-- Modelled from the spec: the gradient of the mean-reduction loss with
respect to `w`, the sum-reduction gradient normalized by the batch size
(spec §4.1 step 5); here the reduced tensor has `Fintype.card (Fin 1) = 1`
element. -/
def gradWMean {K : Type} [Field K] {N : ℕ} (w : Fin N → K) (b : K)
    (x : Fin N → K) (y : K) : Fin N → K :=
  fun i => 2 * (yHat w x b - y) * x i / (Fintype.card (Fin 1) : K)

/-- Modelled from the spec: the gradient of the mean-reduction loss with
respect to `b`, normalized by the batch size. -/
def gradBMean {K : Type} [Field K] {N : ℕ} (w : Fin N → K) (b : K)
    (x : Fin N → K) (y : K) : K :=
  2 * (yHat w x b - y) / (Fintype.card (Fin 1) : K)

/-- The trainer's mutable state: the parameter vector `w`, the bias `b`, and
the two gradient accumulators (`w.grad` and `b.grad`; PyTorch's initial
`None` is modelled as zero, since the first `backward()` call treats it as
zero). -/
@[ext]
structure TrainState (K : Type) (N : ℕ) where
  w : Fin N → K
  b : K
  wGrad : Fin N → K
  bGrad : K

/-- One iteration of the first (sum-reduction) training loop:
sample `x` (passed in), compute `y`, `y_hat` and the loss, run `backward()`
(which ACCUMULATES the loss's gradient into the accumulators), update
`w -= learning_rate * w.grad` and `b -= learning_rate * b.grad`, then
`w.grad.zero_()` and `b.grad.zero_()`. -/
def step {K : Type} [Field K] {N : ℕ} (lr a c : K) (x : Fin N → K)
    (s : TrainState K N) : TrainState K N :=
  let y := targetCode a c x
  let gw : Fin N → K := fun i => s.wGrad i + gradW s.w s.b x y i
  let gb : K := s.bGrad + gradB s.w s.b x y
  { w := fun i => s.w i - lr * gw i
    b := s.b - lr * gb
    wGrad := fun _ => 0
    bGrad := 0 }

/-- One iteration of the second (mean-reduction) training loop; identical to
`step` except that `backward()` accumulates the gradient of `lossMean`
instead of `lossSum`. -/
def stepMean {K : Type} [Field K] {N : ℕ} (lr a c : K) (x : Fin N → K)
    (s : TrainState K N) : TrainState K N :=
  let y := targetCode a c x
  let gw : Fin N → K := fun i => s.wGrad i + gradWMean s.w s.b x y i
  let gb : K := s.bGrad + gradBMean s.w s.b x y
  { w := fun i => s.w i - lr * gw i
    b := s.b - lr * gb
    wGrad := fun _ => 0
    bGrad := 0 }

/-- The initial state: `w = torch.rand([N])` (the sampled vector `w0` is an
explicit argument), `b = torch.ones([1])`, i.e. `b = 1`, and both gradient
accumulators unset (zero). -/
def initState {K : Type} [Field K] {N : ℕ} (w0 : Fin N → K) :
    TrainState K N :=
  { w := w0, b := 1, wGrad := fun _ => 0, bGrad := 0 }

/-- Running `k` iterations of the training loop, drawing the iteration-`j` input
from the stream `xs j` (this mirrors `for i in range(epochs)` with a fresh
`torch.randn([N])` each pass). -/
def runN {K : Type} [Field K] {N : ℕ} (lr a c : K) (xs : ℕ → Fin N → K) :
    ℕ → TrainState K N → TrainState K N
  | 0, s => s
  | k + 1, s => step lr a c (xs k) (runN lr a c xs k s)

/-- The whole training run: `steps` is an integer (Python's `range(n)` is
empty for `n ≤ 0`, hence `Int.toNat`). -/
def train {K : Type} [Field K] {N : ℕ} (steps : ℤ) (lr a c : K)
    (xs : ℕ → Fin N → K) (s : TrainState K N) : TrainState K N :=
  runN lr a c xs steps.toNat s

/-! ### Helper lemmas -/

/-- The shape-`[1]` sum reduction collapses: `lossSum` is the squared error. -/
lemma lossSum_eq {K : Type} [Field K] {N : ℕ} (w : Fin N → K) (b : K)
    (x : Fin N → K) (y : K) :
    lossSum w b x y = (dot w x + b - y) ^ 2 := by
  simp [lossSum, sumT, yHat, Fin.sum_univ_one]

/-- The shape-`[1]` mean reduction also collapses to the squared error. -/
lemma lossMean_eq {K : Type} [Field K] {N : ℕ} (w : Fin N → K) (b : K)
    (x : Fin N → K) (y : K) :
    lossMean w b x y = (dot w x + b - y) ^ 2 := by
  simp [lossMean, meanT, sumT, yHat, Fin.sum_univ_one]

/-- Updating one coordinate of `w` changes `dot w x` affinely in the new
coordinate value. -/
lemma dot_update {K : Type} [Field K] {N : ℕ} (w x : Fin N → K) (i : Fin N)
    (t : K) :
    dot (Function.update w i t) x = t * x i + (dot w x - w i * x i) := by
  unfold dot
  have h : (fun j => Function.update w i t j * x j)
      = Function.update (fun j => w j * x j) i (t * x i) := by
    funext j
    by_cases hj : j = i
    · subst hj; simp
    · simp [Function.update_noteq hj]
  have h2 : ∑ j, Function.update w i t j * x j
      = t * x i + ∑ j ∈ Finset.univ \ {i}, w j * x j := by
    rw [show (∑ j, Function.update w i t j * x j)
        = ∑ j, Function.update (fun j => w j * x j) i (t * x i) j from by
      rw [h]]
    exact Finset.sum_update_of_mem (Finset.mem_univ i) _ _
  have h3 : ∑ j, w j * x j
      = w i * x i + ∑ j ∈ Finset.univ \ {i}, w j * x j := by
    have h4 := Finset.sum_eq_sum_diff_singleton_add (Finset.mem_univ i)
      (fun j => w j * x j)
    rw [h4]; ring
  rw [h2, h3]; ring

/-- A run `runN` only reads inputs at indices below the iteration count. -/
lemma runN_congr {K : Type} [Field K] {N : ℕ} (lr a c : K)
    (xs1 xs2 : ℕ → Fin N → K) (s : TrainState K N) :
    ∀ k : ℕ, (∀ j, j < k → xs1 j = xs2 j) →
      runN lr a c xs1 k s = runN lr a c xs2 k s := by
  intro k
  induction k with
  | zero => intro _; rfl
  | succ m ih =>
      intro h
      show step lr a c (xs1 m) (runN lr a c xs1 m s)
          = step lr a c (xs2 m) (runN lr a c xs2 m s)
      rw [h m (Nat.lt_succ_self m),
        ih (fun j hj => h j (Nat.lt_succ_of_lt hj))]

/-- Both gradient accumulators are zero at the start of every iteration:
they start out unset (zero) and each iteration ends with `zero_()`. -/
lemma grads_zero {K : Type} [Field K] {N : ℕ} (lr a c : K)
    (xs : ℕ → Fin N → K) (w0 : Fin N → K) (k : ℕ) :
    ((runN lr a c xs k (initState w0)).wGrad = fun _ => 0) ∧
      (runN lr a c xs k (initState w0)).bGrad = 0 := by
  cases k with
  | zero => exact ⟨rfl, rfl⟩
  | succ m => exact ⟨rfl, rfl⟩

/-- Over `ℝ`, the closed form `gradW` is the exact partial derivative of the
sum-reduction loss with respect to the coordinate `w i`. -/
lemma lossSum_hasDerivAt_w {N : ℕ} (w x : Fin N → ℝ) (b y : ℝ) (i : Fin N) :
    HasDerivAt (fun t => lossSum (Function.update w i t) b x y)
      (gradW w b x y i) (w i) := by
  have hfun : (fun t => lossSum (Function.update w i t) b x y)
      = fun t => (t * x i + (dot w x - w i * x i + b - y)) ^ 2 := by
    funext t
    rw [lossSum_eq, dot_update]
    ring
  rw [hfun]
  have h1 : HasDerivAt (fun t : ℝ => t * x i) (x i) (w i) :=
    hasDerivAt_mul_const (x i)
  have h := (h1.add_const (dot w x - w i * x i + b - y)).pow 2
  convert h using 1
  unfold gradW yHat
  push_cast
  ring

/-- Over `ℝ`, the closed form `gradB` is the exact derivative of the
sum-reduction loss with respect to the bias `b`. -/
lemma lossSum_hasDerivAt_b {N : ℕ} (w x : Fin N → ℝ) (b y : ℝ) :
    HasDerivAt (fun t => lossSum w t x y) (gradB w b x y) b := by
  have hfun : (fun t => lossSum w t x y)
      = fun t => (t + (dot w x - y)) ^ 2 := by
    funext t
    rw [lossSum_eq]
    ring
  rw [hfun]
  have h1 : HasDerivAt (fun t : ℝ => t) 1 b := hasDerivAt_id b
  have h := (h1.add_const (dot w x - y)).pow 2
  convert h using 1
  unfold gradB yHat
  push_cast
  ring

/-- Over `ℝ`, `gradWMean` is the exact partial derivative of the
mean-reduction loss with respect to `w i` (it coincides with `gradW` because
the reduced tensor has a single element). -/
lemma lossMean_hasDerivAt_w {N : ℕ} (w x : Fin N → ℝ) (b y : ℝ) (i : Fin N) :
    HasDerivAt (fun t => lossMean (Function.update w i t) b x y)
      (gradWMean w b x y i) (w i) := by
  have hfun : (fun t => lossMean (Function.update w i t) b x y)
      = fun t => lossSum (Function.update w i t) b x y := by
    funext t
    rw [lossMean_eq, lossSum_eq]
  have hval : gradWMean w b x y i = gradW w b x y i := by
    simp [gradWMean, gradW]
  rw [hfun, hval]
  exact lossSum_hasDerivAt_w w x b y i

/-- Over `ℝ`, `gradBMean` is the exact derivative of the mean-reduction loss
with respect to `b`. -/
lemma lossMean_hasDerivAt_b {N : ℕ} (w x : Fin N → ℝ) (b y : ℝ) :
    HasDerivAt (fun t => lossMean w t x y) (gradBMean w b x y) b := by
  have hfun : (fun t => lossMean w t x y)
      = fun t => lossSum w t x y := by
    funext t
    rw [lossMean_eq, lossSum_eq]
  have hval : gradBMean w b x y = gradB w b x y := by
    simp [gradBMean, gradB]
  rw [hfun, hval]
  exact lossSum_hasDerivAt_b w x b y

/-! ### Claim theorems -/

/-- Claim C1: for the sum-reduction training step the gradients applied in
the parameter update — `gradW` and `gradB`, the values `backward()` writes
into the accumulators `step` subtracts — equal the closed forms
`∂loss/∂w = 2(y_hat − y)·x` componentwise and `∂loss/∂b = 2(y_hat − y)`,
for every parameter state `(w, b)` and every input vector `x`; and these
closed forms are the exact derivatives of the embedded loss `lossSum`. -/
theorem sum_loss_gradients_match_closed_forms {N : ℕ} (w x : Fin N → ℝ)
    (b y : ℝ) :
    (∀ i, HasDerivAt (fun t => lossSum (Function.update w i t) b x y)
        (gradW w b x y i) (w i)) ∧
    HasDerivAt (fun t => lossSum w t x y) (gradB w b x y) b ∧
    (∀ i, gradW w b x y i = 2 * (yHat w x b - y) * x i) ∧
    gradB w b x y = 2 * (yHat w x b - y) :=
  ⟨fun i => lossSum_hasDerivAt_w w x b y i, lossSum_hasDerivAt_b w x b y,
    fun _ => rfl, rfl⟩

/-- Claim C2: at every iteration the update computes
`w ← w − lr·∂loss/∂w` and `b ← b − lr·∂loss/∂b` with the gradients of the
CURRENT iteration's loss (at the current state and current input), and the
state after `k` iterations is unchanged if inputs at indices `≥ k` (future
steps) are replaced arbitrarily. -/
theorem update_rule_uses_current_loss_gradient {K : Type} [Field K] {N : ℕ}
    (lr a c : K) (w0 : Fin N → K) (xs xs2 : ℕ → Fin N → K) (k : ℕ)
    (h : ∀ j, j < k → xs j = xs2 j) :
    ((runN lr a c xs (k + 1) (initState w0)).w = fun i =>
        (runN lr a c xs k (initState w0)).w i
          - lr * gradW (runN lr a c xs k (initState w0)).w
              (runN lr a c xs k (initState w0)).b (xs k)
              (targetCode a c (xs k)) i) ∧
    ((runN lr a c xs (k + 1) (initState w0)).b
        = (runN lr a c xs k (initState w0)).b
          - lr * gradB (runN lr a c xs k (initState w0)).w
              (runN lr a c xs k (initState w0)).b (xs k)
              (targetCode a c (xs k))) ∧
    runN lr a c xs k (initState w0) = runN lr a c xs2 k (initState w0) := by
  refine ⟨?_, ?_, runN_congr lr a c xs xs2 (initState w0) k h⟩
  · funext i
    show (step lr a c (xs k) (runN lr a c xs k (initState w0))).w i = _
    simp [step, (grads_zero lr a c xs w0 k).1]
  · show (step lr a c (xs k) (runN lr a c xs k (initState w0))).b = _
    simp [step, (grads_zero lr a c xs w0 k).2]

/-- Witness for C2 at a concrete configuration over `ℚ` with `k = 1`. -/
theorem update_rule_uses_current_loss_gradient_witness :
    (∀ j, j < 1 →
        (fun _ : Fin 1 => (1 : ℚ)) = fun _ : Fin 1 => if j = 0 then 1 else 2) ∧
    (((runN (1 : ℚ) 3 (-2) (fun _ => fun _ : Fin 1 => 1) (1 + 1)
          (initState fun _ => 0)).w = fun i =>
        (runN (1 : ℚ) 3 (-2) (fun _ => fun _ : Fin 1 => 1) 1
            (initState fun _ => 0)).w i
          - 1 * gradW (runN (1 : ℚ) 3 (-2) (fun _ => fun _ : Fin 1 => 1) 1
              (initState fun _ => 0)).w
              (runN (1 : ℚ) 3 (-2) (fun _ => fun _ : Fin 1 => 1) 1
                (initState fun _ => 0)).b (fun _ : Fin 1 => 1)
              (targetCode 3 (-2) fun _ : Fin 1 => 1) i) ∧
      ((runN (1 : ℚ) 3 (-2) (fun _ => fun _ : Fin 1 => 1) (1 + 1)
          (initState fun _ => 0)).b
        = (runN (1 : ℚ) 3 (-2) (fun _ => fun _ : Fin 1 => 1) 1
            (initState fun _ => 0)).b
          - 1 * gradB (runN (1 : ℚ) 3 (-2) (fun _ => fun _ : Fin 1 => 1) 1
              (initState fun _ => 0)).w
              (runN (1 : ℚ) 3 (-2) (fun _ => fun _ : Fin 1 => 1) 1
                (initState fun _ => 0)).b (fun _ : Fin 1 => 1)
              (targetCode 3 (-2) fun _ : Fin 1 => 1)) ∧
      runN (1 : ℚ) 3 (-2) (fun _ => fun _ : Fin 1 => 1) 1
          (initState fun _ => 0)
        = runN (1 : ℚ) 3 (-2) (fun j => fun _ : Fin 1 => if j = 0 then 1 else 2)
            1 (initState fun _ => 0)) := by
  have hagree : ∀ j, j < 1 →
      ((fun _ => fun _ : Fin 1 => (1 : ℚ)) j)
        = (fun j => fun _ : Fin 1 => if j = 0 then (1 : ℚ) else 2) j := by
    intro j hj
    funext t
    simp [Nat.lt_one_iff.mp hj]
  refine ⟨?_, update_rule_uses_current_loss_gradient 1 3 (-2)
    (fun _ => 0) (fun _ => fun _ : Fin 1 => 1)
    (fun j => fun _ : Fin 1 => if j = 0 then 1 else 2) 1 hagree⟩
  intro j hj
  funext t
  simp [Nat.lt_one_iff.mp hj]

/-- Claim C3: invariant over all iterations — both gradient accumulators are
zero at the start of every iteration, so each update subtracts exactly
`lr` times the gradient freshly derived from the current iteration's loss,
never a stale accumulated gradient. -/
theorem grad_accumulators_fresh_every_iteration {K : Type} [Field K] {N : ℕ}
    (lr a c : K) (xs : ℕ → Fin N → K) (w0 : Fin N → K) (k : ℕ) :
    ((runN lr a c xs k (initState w0)).wGrad = fun _ => 0) ∧
    (runN lr a c xs k (initState w0)).bGrad = 0 ∧
    (∀ x : Fin N → K,
      (step lr a c x (runN lr a c xs k (initState w0))).w = fun i =>
        (runN lr a c xs k (initState w0)).w i
          - lr * gradW (runN lr a c xs k (initState w0)).w
              (runN lr a c xs k (initState w0)).b x (targetCode a c x) i) ∧
    (∀ x : Fin N → K,
      (step lr a c x (runN lr a c xs k (initState w0))).b
        = (runN lr a c xs k (initState w0)).b
          - lr * gradB (runN lr a c xs k (initState w0)).w
              (runN lr a c xs k (initState w0)).b x (targetCode a c x)) := by
  refine ⟨(grads_zero lr a c xs w0 k).1, (grads_zero lr a c xs w0 k).2,
    ?_, ?_⟩
  · intro x
    funext i
    simp [step, (grads_zero lr a c xs w0 k).1]
  · intro x
    simp [step, (grads_zero lr a c xs w0 k).2]

/-- Counterexample to claim C4: the code performs no validation.  With the
invalid configuration `learning_rate = −1 ≤ 0` (and `steps = 1`, `N = 1`)
training does not fail and DOES mutate the parameters: starting from
`w = (1)`, one step moves `w 0` from `1` to `3`. -/
theorem no_validation_mutation_counterexample :
    ((-1 : ℚ) ≤ 0) ∧
    (train 1 (-1 : ℚ) 3 (-2) (fun _ => fun _ : Fin 1 => 1)
        (initState fun _ => 1)).w 0 = 3 ∧
    (initState (K := ℚ) (N := 1) fun _ => 1).w 0 = 1 ∧
    (3 : ℚ) ≠ 1 := by
  refine ⟨by norm_num, ?_, rfl, by norm_num⟩
  show (step (-1 : ℚ) 3 (-2) (fun _ : Fin 1 => 1) (initState fun _ => 1)).w 0
      = 3
  simp [step, initState, gradW, gradB, targetCode, yHat, dot, onesV,
    Fin.sum_univ_one]
  norm_num

/-- Claim C4 as amended: the loop performs no configuration validation; a
run with `steps ≤ 0` simply executes zero iterations (Python's `range` is
empty), leaving the whole state — in particular `w` and `b` — unchanged,
while other invalid configurations (such as non-positive `learning_rate`)
are accepted and the loop runs normally, mutating the parameters. -/
theorem nonpositive_steps_run_zero_iterations {K : Type} [Field K] {N : ℕ}
    (steps : ℤ) (h : steps ≤ 0) (lr a c : K) (xs : ℕ → Fin N → K)
    (s : TrainState K N) :
    train steps lr a c xs s = s := by
  unfold train
  rw [Int.toNat_of_nonpos h]
  rfl

/-- Witness for the amended C4 at `steps = −3` over `ℚ`. -/
theorem nonpositive_steps_run_zero_iterations_witness :
    ((-3 : ℤ) ≤ 0) ∧
    train (-3) (1 : ℚ) 3 (-2) (fun _ => fun _ : Fin 1 => 0)
        (initState fun _ => 0)
      = initState fun _ => 0 :=
  ⟨by decide, nonpositive_steps_run_zero_iterations (-3) (by decide) 1 3 (-2)
    (fun _ => fun _ : Fin 1 => 0) (initState fun _ => 0)⟩

/-- Claim C5: with one scalar target per step the reduced tensor has a
single element, so the mean-reduction loss equals the sum-reduction loss for
every `(w, b, x)` (and every `y`), and consequently the two loop variants
perform identical per-step parameter updates given identical parameters,
inputs and ground-truth constants. -/
theorem mean_and_sum_variants_coincide {K : Type} [Field K] {N : ℕ}
    (w : Fin N → K) (b : K) (x : Fin N → K) (y : K) (lr a c : K)
    (s : TrainState K N) :
    lossMean w b x y = lossSum w b x y ∧
    stepMean lr a c x s = step lr a c x s := by
  constructor
  · rw [lossMean_eq, lossSum_eq]
  · unfold stepMean step
    ext i <;> simp [gradWMean, gradW, gradBMean, gradB]

/-- Claim C6: running `train` with `steps = 0` performs no iteration and
leaves `w` and `b` exactly equal to their initialized values (`w = w0`,
`b = 1`). -/
theorem zero_steps_parameters_unchanged {K : Type} [Field K] {N : ℕ}
    (lr a c : K) (xs : ℕ → Fin N → K) (w0 : Fin N → K) :
    (train 0 lr a c xs (initState w0)).w = w0 ∧
    (train 0 lr a c xs (initState w0)).b = 1 :=
  ⟨rfl, rfl⟩

/-- Claim C7: the loop is deterministic given its random inputs — two runs
whose initial states are equal and whose sampled input streams agree on the
first `n` draws produce identical states at every step `k ≤ n` of the
trajectory. -/
theorem deterministic_under_identical_inputs {K : Type} [Field K] {N : ℕ}
    (lr a c : K) (s1 s2 : TrainState K N) (xs1 xs2 : ℕ → Fin N → K)
    (n k : ℕ) (hs : s1 = s2) (hxs : ∀ j, j < n → xs1 j = xs2 j)
    (hk : k ≤ n) :
    runN lr a c xs1 k s1 = runN lr a c xs2 k s2 := by
  subst hs
  exact runN_congr lr a c xs1 xs2 s1 k
    (fun j hj => hxs j (lt_of_lt_of_le hj hk))

/-- Witness for C7 at a concrete configuration over `ℚ` (`n = k = 1`, two
input streams that agree on draw 0 and differ from draw 1 on). -/
theorem deterministic_under_identical_inputs_witness :
    (∀ j, j < 1 →
        (fun _ : Fin 1 => (1 : ℚ)) = fun _ : Fin 1 => if j = 0 then 1 else 2) ∧
    (1 : ℕ) ≤ 1 ∧
    runN (1 : ℚ) 3 (-2) (fun _ => fun _ : Fin 1 => 1) 1 (initState fun _ => 0)
      = runN (1 : ℚ) 3 (-2)
          (fun j => fun _ : Fin 1 => if j = 0 then 1 else 2) 1
          (initState fun _ => 0) := by
  have hagree : ∀ j, j < 1 →
      ((fun _ => fun _ : Fin 1 => (1 : ℚ)) j)
        = (fun j => fun _ : Fin 1 => if j = 0 then (1 : ℚ) else 2) j := by
    intro j hj
    funext t
    simp [Nat.lt_one_iff.mp hj]
  refine ⟨?_, le_rfl, deterministic_under_identical_inputs 1 3 (-2)
    (initState fun _ => 0) (initState fun _ => 0)
    (fun _ => fun _ : Fin 1 => 1)
    (fun j => fun _ : Fin 1 => if j = 0 then 1 else 2) 1 1 rfl hagree le_rfl⟩
  intro j hj
  funext t
  simp [Nat.lt_one_iff.mp hj]

/-- Claim C8: the code's target expression
`torch.dot(a*torch.ones([N]), x) + c` equals `a · sum(x) + c` for every
input vector `x` and all constants `a`, `c` (the loop fixes `a`, `c` once
per run — `a = 3, c = −2` in the first variant, `a = 2, c = −5` in the
second — and `runN` threads the same `a`, `c` into every iteration). -/
theorem target_equals_slope_times_sum {K : Type} [Field K] {N : ℕ}
    (a c : K) (x : Fin N → K) :
    targetCode a c x = a * sumT x + c := by
  unfold targetCode dot onesV sumT
  simp [mul_one, Finset.mul_sum]

/-- Claim C10: with `learning_rate = 0` — a value the loop accepts — every
component of `w` and the bias `b` stay exactly at their initialized values
after any number of iterations, since each update subtracts
`learning_rate * grad = 0`. -/
theorem zero_learning_rate_parameters_frozen {K : Type} [Field K] {N : ℕ}
    (a c : K) (xs : ℕ → Fin N → K) (w0 : Fin N → K) (k : ℕ) :
    ((runN (0 : K) a c xs k (initState w0)).w = w0) ∧
    (runN (0 : K) a c xs k (initState w0)).b = 1 := by
  induction k with
  | zero => exact ⟨rfl, rfl⟩
  | succ m ih =>
      constructor
      · funext i
        show (step (0 : K) a c (xs m) (runN 0 a c xs m (initState w0))).w i
            = w0 i
        simp [step, ih.1]
      · show (step (0 : K) a c (xs m) (runN 0 a c xs m (initState w0))).b = 1
        simp [step, ih.2]

end LinRegIntro
